import Mathlib

/-!
Shallow embedding of the control-flow unwarper `ljd/ast/unwarper.py`
(the LuaJIT-bytecode decompiler's structuring pass), together with
theorems settling the frozen claims about it.

Modelling conventions:

* Python object identity is modelled by an `id : Nat` field on `Block`;
  warp edges store the `id` of the block they reference (in Python they
  hold the object reference).  Two distinct blocks never share an `id`.
  Where the Python code dereferences a warp target (`warp.target.index`),
  the embedding looks the target up by `id` in the ambient block list; a
  failed lookup (impossible in Python, where the reference is always a
  live object) is reported as `Err.dangling`.
* Python exceptions are modelled with `Except Err`: `assert` failures
  become `Err.assertion msg` (with the assert's message, `""` for a bare
  assert), `raise NotImplementedError(m)` becomes `Err.notImplemented m`,
  list-index errors become `Err.indexErr`, and a Python loop that would
  not terminate is reported as `Err.divergence` (fuel exhaustion).
* The AST node classes live in `ljd/ast/nodes.py`, which is not part of
  the sources; the structure of the node constructors used by the
  unwarper is modelled from the spec (section 3).  Statement kinds other
  than `Assignment` and `Break` are collapsed into `Stat.otherStat`:
  the unwarper never looks inside them.
-/

set_option autoImplicit false

namespace Ljd

/-- A LuaJIT constant value as stored in a `Constant` node.  Python
compares it to `0` with `!=`; a string constant is never equal to `0`. -/
inductive KValue where
  | num (n : Int)
  | str (s : String)
  deriving DecidableEq, Repr

/-- Primitive node type tags (`nodes.Primitive.T_TRUE/T_FALSE/T_NIL`). -/
inductive PrimT where
  | tTrue
  | tFalse
  | tNil
  deriving DecidableEq, Repr

/-- Identifier node type tags (`nodes.Identifier.T_LOCAL/T_SLOT/...`).
Modelled from the spec: `Identifier{type∈{Local,Slot,Upvalue,Global,...}}`. -/
inductive IdT where
  | tLocal
  | tSlot
  | tUpvalue
  | tGlobal
  deriving DecidableEq, Repr

/-- Modelled from the spec: the integer operator tags of
`nodes.BinaryOperator` (`ljd/ast/nodes.py` is not among the sources).
Only two facts about the values are observable in the embedded code:
the tags are distinct machine integers below 100 (the `_NEGATION_MAP`
table size), and per spec section 4.8 the tighter-binding logical
operator must compare less, so `T_LOGICAL_AND < T_LOGICAL_OR`. -/
def T_LOGICAL_AND : Nat := 1

/-- Modelled from the spec: see `T_LOGICAL_AND`. -/
def T_LOGICAL_OR : Nat := 2

/-- Modelled from the spec: comparison operator tag. -/
def T_LESS_THEN : Nat := 10

/-- Modelled from the spec: comparison operator tag. -/
def T_GREATER_THEN : Nat := 11

/-- Modelled from the spec: comparison operator tag. -/
def T_LESS_OR_EQUAL : Nat := 12

/-- Modelled from the spec: comparison operator tag. -/
def T_GREATER_OR_EQUAL : Nat := 13

/-- Modelled from the spec: comparison operator tag. -/
def T_NOT_EQUAL : Nat := 14

/-- Modelled from the spec: comparison operator tag. -/
def T_EQUAL : Nat := 15

/-- Modelled from the spec: `nodes.UnaryOperator.T_NOT`. -/
def T_NOT : Nat := 0

/-- Modelled from the spec: a unary operator tag other than `T_NOT`
(the spec writes `UnaryOperator{type∈{Not,...}}`; Lua's other unary
operators are arithmetic minus and length). -/
def T_MINUS : Nat := 1

/-- Modelled from the spec: the length unary operator tag. -/
def T_LENGTH_OPERATOR : Nat := 2

/-- Expression nodes, as far as the unwarper inspects them. -/
inductive Expr where
  | identifier (ty : IdT) (slot : Int)
  | constant (value : KValue)
  | primitive (ty : PrimT)
  | binaryOp (ty : Nat) (left right : Expr)
  | unaryOp (ty : Nat) (operand : Expr)
  deriving DecidableEq, Repr

/-- Statement nodes.  `assign` is `nodes.Assignment` (with its
`destinations.contents` and `expressions.contents` lists), `breakStat`
is `nodes.Break`; every other statement kind is opaque to the unwarper
and collapsed into `otherStat`. -/
inductive Stat where
  | assign (destinations : List Expr) (expressions : List Expr)
  | breakStat
  | otherStat (tag : Nat)
  deriving DecidableEq, Repr

/-- The `type` field of `nodes.UnconditionalWarp`. -/
inductive UncondT where
  | flow
  | jump
  deriving DecidableEq, Repr

/-- Warp edge descriptors.  Targets are block ids (Python: object
references).  The payload of the two loop-header warps (variables,
controls) is not inspected by any embedded function and is omitted. -/
inductive Warp where
  | uncond (ty : UncondT) (target : Nat)
  | cond (condition : Expr) (trueTarget falseTarget : Nat)
  | endW
  | iteratorW (body wayOut : Nat)
  | numericW (body wayOut : Nat)
  deriving DecidableEq, Repr

/-- A basic block (`nodes.Block`).  `id` models Python object identity
(see the file header); the remaining fields are the attributes the
unwarper reads and writes. -/
structure Block where
  id : Nat
  index : Nat
  contents : List Stat
  warp : Warp
  warpins_count : Nat
  first_address : Nat
  last_address : Nat
  deriving DecidableEq, Repr

/-- Python exceptions and un-representable states (see the file header). -/
inductive Err where
  | assertion (msg : String)
  | notImplemented (msg : String)
  | indexErr
  | typeErr
  | attributeErr
  | dangling
  | divergence
  | notModelled
  deriving DecidableEq, Repr

/-- The diagnostic shared by the hard-failure paths of the unwarper. -/
def goto_msg : String := "GOTO statements are not supported"

instance {ε α : Type} [DecidableEq ε] [DecidableEq α] : DecidableEq (Except ε α) := fun a b =>
  match a, b with
  | .ok x, .ok y => if h : x = y then .isTrue (by simp [h]) else .isFalse (by simp [h])
  | .error x, .error y => if h : x = y then .isTrue (by simp [h]) else .isFalse (by simp [h])
  | .ok _, .error _ => .isFalse (by simp)
  | .error _, .ok _ => .isFalse (by simp)

/-- `_is_flow(warp)`. -/
def is_flow (w : Warp) : Bool :=
  match w with
  | .uncond .flow _ => true
  | _ => false

/-- `_is_jump(warp)`. -/
def is_jump (w : Warp) : Bool :=
  match w with
  | .uncond .jump _ => true
  | _ => false

/-- `_get_target(warp)`: the false target of a conditional warp, the
target of an unconditional one; asserts otherwise. -/
def warp_target (w : Warp) : Except Err Nat :=
  match w with
  | .cond _ _ falseTarget => .ok falseTarget
  | .uncond _ target => .ok target
  | _ => .error (.assertion "")

/-- `_set_target(warp, target)`: sets the false target of a conditional
warp, the target of an unconditional one; asserts otherwise. -/
def set_target (w : Warp) (target : Nat) : Except Err Warp :=
  match w with
  | .cond c tt _ => .ok (.cond c tt target)
  | .uncond ty _ => .ok (.uncond ty target)
  | _ => .error (.assertion "")

/-- Dereference a warp target: Python follows the object reference; the
embedding finds the block with that id in the ambient list. -/
def lookup_block (blocks : List Block) (t : Nat) : Option Block :=
  blocks.find? (fun b => b.id = t)

/-- `blocks.index(b)` (identity-based `list.index`). -/
def block_index (blocks : List Block) (b : Block) : Option Nat :=
  blocks.findIdx? (fun x => x.id = b.id)

/-- `_set_flow_to(block, target)` applied to a block value. -/
def set_flow_to (b : Block) (target : Nat) : Block :=
  { b with warp := .uncond .flow target }

/-- `_create_next_block(original)`.  Python allocates a fresh object;
the embedding receives the fresh id explicitly.  Python leaves the new
block's `warp` unset (`None`); it is always overwritten before being
read, and the placeholder here is `Warp.endW`. -/
def create_next_block (original : Block) (newId : Nat) : Block :=
  { id := newId
    index := original.index + 1
    contents := []
    warp := .endW
    warpins_count := original.warpins_count
    first_address := original.last_address + 1
    last_address := original.last_address + 1 }

/-! ## Flow gluing (`_glue_flows`), per statements-list -/

/-- The loop body of `_glue_flows` over one statements-list: each
non-last block must carry a `Flow` warp to the textually next block
(both asserted); its contents are prepended to that successor.  Returns
the final (former last) block. -/
def glue_flows_go (b : Block) : List Block → Except Err Block
  | [] => .ok b
  | next :: rest =>
    match b.warp with
    | .uncond .flow t =>
      if t = next.id then
        glue_flows_go { next with contents := b.contents ++ next.contents } rest
      else .error (.assertion "")
    | _ => .error (.assertion "")

/-- `_glue_flows` restricted to a single statements-list (the Python
function loops this body over every gathered list): asserts the last
block's warp is `End`, folds all contents into the last block, and
replaces the list by `[last]`. -/
def glue_flows (blocks : List Block) : Except Err (List Block) :=
  match blocks with
  | [] => .error .indexErr
  | b :: rest =>
    match ((b :: rest).getLast (by simp)).warp with
    | .endW => (glue_flows_go b rest).map (fun fin => [fin])
    | _ => .error (.assertion "")

/-- Decidable form of the C1 precondition: every block except the last
carries a `Flow` warp whose target is the textually next block. -/
def flow_chain : List Block → Bool
  | [] => true
  | [_] => true
  | a :: b :: rest => (a.warp == .uncond .flow b.id) && flow_chain (b :: rest)

/-! ## Final pass (`final_pass`), per statements-list -/

/-- `final_pass` restricted to a single statements-list:
`statements.contents = statements.contents[0].contents`.  Indexing an
empty list would raise in Python (`final_pass` is only handed non-empty
lists by `_gather_statements_lists`). -/
def final_pass_list (blocks : List Block) : Except Err (List Stat) :=
  match blocks with
  | [] => .error .indexErr
  | b :: _ => .ok b.contents

/-! ## Theorems for flow gluing and the final pass -/

theorem flow_chain_contents (n : Block) (c : List Stat) (t : List Block) :
    flow_chain ({ n with contents := c } :: t) = flow_chain (n :: t) := by
  cases t <;> simp [flow_chain]

theorem glue_flows_go_ok : ∀ (rest : List Block) (b : Block),
    flow_chain (b :: rest) = true →
    glue_flows_go b rest =
      .ok { (b :: rest).getLast (by simp) with
            contents := b.contents ++ (rest.map Block.contents).flatten }
  | [], b, _ => by simp [glue_flows_go, List.getLast]
  | n :: t, b, h => by
    simp only [flow_chain, Bool.and_eq_true, beq_iff_eq] at h
    obtain ⟨hb, hrest⟩ := h
    have hrest' : flow_chain ({ n with contents := b.contents ++ n.contents } :: t) = true := by
      rw [flow_chain_contents]; exact hrest
    rw [glue_flows_go, hb]
    simp only [if_pos rfl]
    rw [glue_flows_go_ok t _ hrest']
    cases t with
    | nil => simp [List.getLast]
    | cons m t' =>
      simp [List.getLast_cons, List.flatten, List.append_assoc]

theorem glue_flows_go_warp : ∀ (rest : List Block) (b : Block) (fin : Block),
    glue_flows_go b rest = .ok fin →
    fin.warp = ((b :: rest).getLast (by simp)).warp
  | [], b, fin, h => by
    simp [glue_flows_go] at h
    simp [← h, List.getLast]
  | n :: t, b, fin, h => by
    rw [glue_flows_go] at h
    split at h
    · split at h
      · have := glue_flows_go_warp t _ _ h
        rw [this]
        cases t with
        | nil => simp [List.getLast]
        | cons m t' => simp [List.getLast_cons]
      · cases h
    · cases h

theorem glue_flows_single_end (bs : List Block) (r : List Block)
    (h : glue_flows bs = .ok r) : ∃ blk, r = [blk] ∧ blk.warp = .endW := by
  match bs with
  | [] => simp [glue_flows] at h
  | b :: rest =>
    rw [glue_flows] at h
    match hw : ((b :: rest).getLast (by simp)).warp with
    | .endW =>
      rw [hw] at h
      match hgo : glue_flows_go b rest with
      | .ok fin =>
        rw [hgo] at h
        simp [Except.map] at h
        refine ⟨fin, h.symm, ?_⟩
        rw [glue_flows_go_warp rest b fin hgo, hw]
      | .error e => rw [hgo] at h; simp [Except.map] at h
    | .uncond ty tgt => rw [hw] at h; cases h
    | .cond c tt ft => rw [hw] at h; cases h
    | .iteratorW bo wo => rw [hw] at h; cases h
    | .numericW bo wo => rw [hw] at h; cases h

/-- Claim C1: on a statements-list in which every block except the last
carries a `Flow` warp to the textually next block and the last block
carries `End`, `_glue_flows` returns exactly one block (the former last
block) whose contents are the in-order concatenation of all blocks'
contents; and (second conjunct) whenever `_glue_flows` succeeds at all
- as it must for `primary_pass` to return - the resulting list is a
single block whose warp is `End`. -/
theorem c1_glue_flows_concatenates (b : Block) (rest : List Block)
    (hchain : flow_chain (b :: rest) = true)
    (hend : ((b :: rest).getLast (by simp)).warp = .endW) :
    glue_flows (b :: rest) =
      .ok [{ (b :: rest).getLast (by simp) with
             contents := ((b :: rest).map Block.contents).flatten }] ∧
    (∀ (bs : List Block) (r : List Block), glue_flows bs = .ok r →
      ∃ blk, r = [blk] ∧ blk.warp = .endW) := by
  constructor
  · rw [glue_flows, hend, glue_flows_go_ok rest b hchain]
    simp [Except.map, List.flatten]
  · exact glue_flows_single_end

/-- Witness for C1 at a concrete two-block list. -/
theorem c1_glue_flows_concatenates_witness :
    glue_flows
        [{ id := 0, index := 0, contents := [.otherStat 7], warp := .uncond .flow 1,
           warpins_count := 0, first_address := 0, last_address := 1 },
         { id := 1, index := 1, contents := [.breakStat], warp := .endW,
           warpins_count := 0, first_address := 2, last_address := 3 }] =
      .ok [{ id := 1, index := 1, contents := [.otherStat 7, .breakStat], warp := .endW,
             warpins_count := 0, first_address := 2, last_address := 3 }] := by
  have h := c1_glue_flows_concatenates
    { id := 0, index := 0, contents := [.otherStat 7], warp := .uncond .flow 1,
      warpins_count := 0, first_address := 0, last_address := 1 }
    [{ id := 1, index := 1, contents := [.breakStat], warp := .endW,
       warpins_count := 0, first_address := 2, last_address := 3 }]
    (by decide) (by decide)
  exact h.1

/-- Claim C9: when a statements-list still holds two or more blocks at
`final_pass` time, the list's contents become exactly the first block's
contents - everything after the first block is silently discarded, and
no error is raised. -/
theorem c9_final_pass_keeps_first_block (b0 b1 : Block) (rest : List Block) :
    final_pass_list (b0 :: b1 :: rest) = .ok b0.contents := rfl

/-! ## Negation (`_NEGATION_MAP`, `_invert`) -/

/-- `_NEGATION_MAP`: the fixed swap table for the six comparison
operators; `none` for every other operator tag (the table holds `None`
there). -/
def negation_map (t : Nat) : Option Nat :=
  if t = T_LESS_THEN then some T_GREATER_OR_EQUAL
  else if t = T_GREATER_THEN then some T_LESS_OR_EQUAL
  else if t = T_LESS_OR_EQUAL then some T_GREATER_THEN
  else if t = T_GREATER_OR_EQUAL then some T_LESS_THEN
  else if t = T_NOT_EQUAL then some T_EQUAL
  else if t = T_EQUAL then some T_NOT_EQUAL
  else none

/-- `_invert(expression)`: any unary operator is stripped to its
operand; a non-`BinaryOperator` expression is wrapped in `Not`; a
`BinaryOperator` has its tag pushed through `_NEGATION_MAP`, with an
assertion failure when the table holds `None` (the deep copy performed
by the Python code is invisible under value semantics). -/
def invert (expression : Expr) : Except Err Expr :=
  match expression with
  | .unaryOp _ operand => .ok operand
  | .binaryOp t l r =>
    match negation_map t with
    | some newType => .ok (.binaryOp newType l r)
    | none => .error (.assertion "")
  | e => .ok (.unaryOp T_NOT e)

/-- Counterexample to claim C5: the claim says every expression other
than a `Not` unary operator and the six comparisons is wrapped in a
`Not` unary operator, but `_invert` on a non-comparison binary operator
(here `a and b`) fails its `assert new_type is not None` instead of
returning `Not (a and b)`. -/
theorem c5_invert_counterexample :
    invert (.binaryOp T_LOGICAL_AND (.identifier .tSlot 0) (.identifier .tSlot 1)) =
      .error (.assertion "") ∧
    invert (.binaryOp T_LOGICAL_AND (.identifier .tSlot 0) (.identifier .tSlot 1)) ≠
      .ok (.unaryOp T_NOT
        (.binaryOp T_LOGICAL_AND (.identifier .tSlot 0) (.identifier .tSlot 1))) := by
  constructor
  · rfl
  · decide

/-- Claim C5 (amended): `_invert` strips any unary operator (not only
`Not`) to its operand; on the six comparisons it applies the fixed swap
table with operands unchanged; a binary operator outside the six
comparisons fails an assertion (it is not wrapped in `Not`); every
non-unary non-binary expression is wrapped in a `Not` unary operator.
In particular `not (a < b)` becomes `a >= b` and `not not x` becomes
`x`. -/
theorem c5_invert_characterization :
    (∀ (t : Nat) (op : Expr), invert (.unaryOp t op) = .ok op) ∧
    (∀ l r, invert (.binaryOp T_LESS_THEN l r) = .ok (.binaryOp T_GREATER_OR_EQUAL l r)) ∧
    (∀ l r, invert (.binaryOp T_GREATER_THEN l r) = .ok (.binaryOp T_LESS_OR_EQUAL l r)) ∧
    (∀ l r, invert (.binaryOp T_LESS_OR_EQUAL l r) = .ok (.binaryOp T_GREATER_THEN l r)) ∧
    (∀ l r, invert (.binaryOp T_GREATER_OR_EQUAL l r) = .ok (.binaryOp T_LESS_THEN l r)) ∧
    (∀ l r, invert (.binaryOp T_NOT_EQUAL l r) = .ok (.binaryOp T_EQUAL l r)) ∧
    (∀ l r, invert (.binaryOp T_EQUAL l r) = .ok (.binaryOp T_NOT_EQUAL l r)) ∧
    (∀ l r, invert (.binaryOp T_LOGICAL_AND l r) = .error (.assertion "")) ∧
    (∀ l r, invert (.binaryOp T_LOGICAL_OR l r) = .error (.assertion "")) ∧
    (∀ ty s, invert (.identifier ty s) = .ok (.unaryOp T_NOT (.identifier ty s))) ∧
    (∀ v, invert (.constant v) = .ok (.unaryOp T_NOT (.constant v))) ∧
    (∀ p, invert (.primitive p) = .ok (.unaryOp T_NOT (.primitive p))) ∧
    (∀ x, invert (.unaryOp T_NOT x) = .ok x) :=
  ⟨fun _ _ => rfl, fun _ _ => rfl, fun _ _ => rfl, fun _ _ => rfl, fun _ _ => rfl,
   fun _ _ => rfl, fun _ _ => rfl, fun _ _ => rfl, fun _ _ => rfl, fun _ _ => rfl,
   fun _ => rfl, fun _ => rfl, fun _ => rfl⟩

/-! ## Operator inference (`_get_operator`) -/

/-- `src.value != 0` for a `Constant` node's payload (a Python string
is never `== 0`). -/
def constant_is_true (v : KValue) : Bool :=
  match v with
  | .num n => n != 0
  | .str _ => true

/-- `_get_last_assignment_source(block)`: `None` for an empty block;
otherwise the last statement must be an `Assignment` (asserted) and its
first expression is returned. -/
def get_last_assignment_source (block : Block) : Except Err (Option Expr) :=
  match block.contents.getLast? with
  | none => .ok none
  | some (.assign _dsts exprs) =>
    match exprs.head? with
    | some e => .ok (some e)
    | none => .error .indexErr
  | some _ => .error (.assertion "")

/-- `_is_inverted(warp, true, end)`.  `trueT`/`endT` are the ids of the
`true`/`end` terminators (`none` models Python `None`; a warp target
never compares equal to `None`). -/
def is_inverted (w : Warp) (trueT endT : Option Nat) : Except Err Bool :=
  match w with
  | .uncond _ target => .ok (decide (some target = endT))
  | .cond c _tt falseTarget =>
    if some falseTarget = trueT then .ok true
    else if some falseTarget = endT then
      match c with
      | .binaryOp .. => .error (.assertion "")
      | .unaryOp t _ => .ok (decide (t = T_NOT))
      | _ => .ok false
    else .ok false
  | _ => .error .attributeErr

/-- `_get_operator(block, true, end)`. -/
def get_operator (block : Block) (trueT endT : Option Nat) : Except Err Nat :=
  match block.warp with
  | .uncond _ target => do
    let src ← get_last_assignment_source block
    let is_true ← match src with
      | some (.constant v) => Except.ok (constant_is_true v)
      | some (.binaryOp ..) => Except.ok true
      | some (.primitive p) => Except.ok (decide (p = .tTrue))
      | some _ => Except.error (Err.assertion "")
      | none => Except.ok (decide (some target = trueT))
    pure (if is_true then T_LOGICAL_OR else T_LOGICAL_AND)
  | w => do
    let inv ← is_inverted w trueT endT
    pure (if inv then T_LOGICAL_OR else T_LOGICAL_AND)

/-- Claim C6: for a block whose warp is unconditional, `_get_operator`
infers `LOGICAL_OR` from a truthy last-assigned constant, primitive or
(always) binary operator, `LOGICAL_AND` from a falsy one, and - when the
block holds no assignment - `LOGICAL_OR` exactly when the warp's target
is the `true` terminator. -/
theorem c6_get_operator_cases (block : Block) (ty : UncondT) (target : Nat)
    (trueT endT : Option Nat) (hw : block.warp = .uncond ty target) :
    (∀ v, get_last_assignment_source block = .ok (some (.constant v)) →
      get_operator block trueT endT =
        .ok (if constant_is_true v then T_LOGICAL_OR else T_LOGICAL_AND)) ∧
    (∀ bt l r, get_last_assignment_source block = .ok (some (.binaryOp bt l r)) →
      get_operator block trueT endT = .ok T_LOGICAL_OR) ∧
    (∀ p, get_last_assignment_source block = .ok (some (.primitive p)) →
      get_operator block trueT endT =
        .ok (if p = .tTrue then T_LOGICAL_OR else T_LOGICAL_AND)) ∧
    (block.contents = [] →
      get_operator block trueT endT =
        .ok (if some target = trueT then T_LOGICAL_OR else T_LOGICAL_AND)) := by
  refine ⟨?_, ?_, ?_, ?_⟩
  · intro v hsrc
    unfold get_operator
    rw [hw, hsrc]
    rfl
  · intro bt l r hsrc
    unfold get_operator
    rw [hw, hsrc]
    rfl
  · intro p hsrc
    unfold get_operator
    rw [hw, hsrc]
    cases p <;> rfl
  · intro hempty
    have hsrc : get_last_assignment_source block = .ok none := by
      simp [get_last_assignment_source, hempty]
    unfold get_operator
    rw [hw, hsrc]
    by_cases h : some target = trueT
    · simp [h]
      rfl
    · simp [h]
      rfl

/-- Witness for C6 at concrete blocks: a truthy constant yields `OR`, a
falsy constant yields `AND`, a false primitive yields `AND`, and an
assignment-free block jumping to the `true` terminator yields `OR`. -/
theorem c6_get_operator_cases_witness :
    get_operator
        { id := 0, index := 0, contents := [.assign [.identifier .tSlot 0] [.constant (.num 5)]],
          warp := .uncond .jump 9, warpins_count := 0, first_address := 0, last_address := 0 }
        (some 3) (some 4) = .ok T_LOGICAL_OR ∧
    get_operator
        { id := 0, index := 0, contents := [.assign [.identifier .tSlot 0] [.constant (.num 0)]],
          warp := .uncond .jump 9, warpins_count := 0, first_address := 0, last_address := 0 }
        (some 3) (some 4) = .ok T_LOGICAL_AND ∧
    get_operator
        { id := 0, index := 0, contents := [.assign [.identifier .tSlot 0] [.primitive .tFalse]],
          warp := .uncond .jump 9, warpins_count := 0, first_address := 0, last_address := 0 }
        (some 3) (some 4) = .ok T_LOGICAL_AND ∧
    get_operator
        { id := 0, index := 0, contents := [], warp := .uncond .jump 3,
          warpins_count := 0, first_address := 0, last_address := 0 }
        (some 3) (some 4) = .ok T_LOGICAL_OR := by
  refine ⟨?_, ?_, ?_, ?_⟩
  · have h := (c6_get_operator_cases
      { id := 0, index := 0, contents := [.assign [.identifier .tSlot 0] [.constant (.num 5)]],
        warp := .uncond .jump 9, warpins_count := 0, first_address := 0, last_address := 0 }
      .jump 9 (some 3) (some 4) rfl).1 (.num 5) rfl
    simpa using h
  · have h := (c6_get_operator_cases
      { id := 0, index := 0, contents := [.assign [.identifier .tSlot 0] [.constant (.num 0)]],
        warp := .uncond .jump 9, warpins_count := 0, first_address := 0, last_address := 0 }
      .jump 9 (some 3) (some 4) rfl).1 (.num 0) rfl
    simpa using h
  · have h := (c6_get_operator_cases
      { id := 0, index := 0, contents := [.assign [.identifier .tSlot 0] [.primitive .tFalse]],
        warp := .uncond .jump 9, warpins_count := 0, first_address := 0, last_address := 0 }
      .jump 9 (some 3) (some 4) rfl).2.2.1 .tFalse rfl
    simpa using h
  · have h := (c6_get_operator_cases
      { id := 0, index := 0, contents := [], warp := .uncond .jump 3,
        warpins_count := 0, first_address := 0, last_address := 0 }
      .jump 3 (some 3) (some 4) rfl).2.2.2 rfl
    simpa using h

/-! ## Expression assembly (`_assemble_expression`,
`_make_explicit_subexpressions`) -/

/-- An element of the flat `parts` list built by `_unwarp_expression`:
an operand expression, an operator tag (a Python `int`), or a nested
sub-list. -/
inductive Part where
  | operand (e : Expr)
  | oper (t : Nat)
  | sub (ps : List Part)

/-! Python recursion depth is bounded only by the nesting of `parts`;
the embedding uses explicit fuel, with exhaustion reported as
`Err.divergence` (never reached when the fuel exceeds the nesting
depth). -/
mutual

/-- `_assemble_expression(parts)` on a non-list argument returns it
unchanged.  A bare operator tag at this position is a Python `int`, not
an expression node; the resulting ill-typed tree is unrepresentable
here and reported as `Err.typeErr`. -/
def assemble_expression : Nat → Part → Except Err Expr
  | 0, _ => .error .divergence
  | _ + 1, .operand e => .ok e
  | _ + 1, .oper _ => .error .typeErr
  | fuel + 1, .sub parts => assemble_expression_list fuel parts

/-- `_assemble_expression(parts)` on a list: seed a binary node from
`parts[-3]`, `parts[-2]` (asserted to be an operator tag) and
`parts[-1]`, then fold leftwards. -/
def assemble_expression_list : Nat → List Part → Except Err Expr
  | 0, _ => .error .divergence
  | fuel + 1, parts =>
    if h3 : 3 ≤ parts.length then do
      let left ← assemble_expression fuel (parts.get ⟨parts.length - 3, by omega⟩)
      let t ← match parts.get ⟨parts.length - 2, by omega⟩ with
        | .oper t => Except.ok t
        | _ => Except.error (Err.assertion "")
      let right ← assemble_expression fuel (parts.get ⟨parts.length - 1, by omega⟩)
      assemble_loop fuel parts (parts.length - 4) (.binaryOp t left right)
    else .error .indexErr

/-- The `while i > 0` fold of `_assemble_expression`: wrap the node
built so far with `parts[i]` as operator and `parts[i-1]` as left
operand, stepping `i` down by 2. -/
def assemble_loop : Nat → List Part → Nat → Expr → Except Err Expr
  | 0, _, _, _ => .error .divergence
  | fuel + 1, parts, i, node =>
    if 0 < i then
      match parts.get? i, parts.get? (i - 1) with
      | some op, some comp => do
          let left ← assemble_expression fuel comp
          match op with
          | .oper t => assemble_loop fuel parts (i - 2) (.binaryOp t left node)
          | _ => .error .typeErr
      | _, _ => .error .indexErr
    else .ok node

end

/-- A Python `<` comparison between two `parts` entries: defined for
two operator tags (machine integers); anything else would raise
`TypeError` in Python 3. -/
def cmp_lt_part (a b : Part) : Except Err Bool :=
  match a, b with
  | .oper x, .oper y => .ok (decide (x < y))
  | _, _ => .error .typeErr

/-- The `while i < len(parts) - 1` loop of
`_make_explicit_subexpressions`, stepping `i` by 2 and carrying
`patched`, `last_operator` and `subexpression_start` (Python `-1` when
no subexpression is open). -/
def make_explicit_go (parts : List Part) : Nat → Nat → List Part → Part → Int →
    Except Err (List Part)
  | 0, _, _, _, _ => .error .divergence
  | fuel + 1, i, patched, lastOp, subStart =>
    if h : i < parts.length - 1 then do
      let component := parts.get ⟨i, by omega⟩
      let operator := parts.get ⟨i + 1, by omega⟩
      let b ← cmp_lt_part operator lastOp
      if b then
        make_explicit_go parts fuel (i + 2) patched operator (i : Int)
      else if subStart > 0 then do
        let b2 ← cmp_lt_part lastOp operator
        if b2 && (((i : Int) - subStart) % 2 != 0) then
          make_explicit_go parts fuel (i + 2)
            (patched ++ [.sub ((parts.drop subStart.toNat).take (i - subStart.toNat))])
            lastOp (-1)
        else
          make_explicit_go parts fuel (i + 2) patched lastOp subStart
      else
        make_explicit_go parts fuel (i + 2) (patched ++ [component, operator]) lastOp subStart
    else
      if subStart ≥ 0 then .ok (patched ++ [.sub (parts.drop subStart.toNat)])
      else
        match parts.getLast? with
        | some lastPart => .ok (patched ++ [lastPart])
        | none => .error .indexErr

/-- `_make_explicit_subexpressions(parts)`: `last_operator` starts as
`parts[1]` (an `IndexError` on shorter lists); the loop fuel
`parts.length + 1` strictly exceeds the number of iterations. -/
def make_explicit_subexpressions (parts : List Part) : Except Err (List Part) :=
  match parts.get? 1 with
  | none => .error .indexErr
  | some p1 => make_explicit_go parts (parts.length + 1) 0 [] p1 (-1)

/-- Claim C4 evaluated at its failing input (and at the input the claim
gets right).  With `a`, `b`, `c` the slot identifiers 0, 1, 2: the flat
sequence `[a, AND, b, OR, c]` assembles to `a and (b or c)` - not to
`(a and b) or c` as the claim and Lua precedence require - while
`[a, OR, b, AND, c]` correctly assembles to `a or (b and c)`.  (The
subexpression-closing branch of `_make_explicit_subexpressions` tests
`(i - subexpression_start) % 2 != 0`, and both counters are always
even, so a subexpression opened after an `AND` prefix never closes;
the outcome is the same for either relative order of the two logical
operator tags.) -/
theorem c4_and_or_assembly :
    (make_explicit_subexpressions
        [.operand (.identifier .tSlot 0), .oper T_LOGICAL_AND,
         .operand (.identifier .tSlot 1), .oper T_LOGICAL_OR,
         .operand (.identifier .tSlot 2)]).bind
      (assemble_expression_list 100) =
      .ok (.binaryOp T_LOGICAL_AND (.identifier .tSlot 0)
            (.binaryOp T_LOGICAL_OR (.identifier .tSlot 1) (.identifier .tSlot 2))) ∧
    (make_explicit_subexpressions
        [.operand (.identifier .tSlot 0), .oper T_LOGICAL_AND,
         .operand (.identifier .tSlot 1), .oper T_LOGICAL_OR,
         .operand (.identifier .tSlot 2)]).bind
      (assemble_expression_list 100) ≠
      .ok (.binaryOp T_LOGICAL_OR
            (.binaryOp T_LOGICAL_AND (.identifier .tSlot 0) (.identifier .tSlot 1))
            (.identifier .tSlot 2)) ∧
    (make_explicit_subexpressions
        [.operand (.identifier .tSlot 0), .oper T_LOGICAL_OR,
         .operand (.identifier .tSlot 1), .oper T_LOGICAL_AND,
         .operand (.identifier .tSlot 2)]).bind
      (assemble_expression_list 100) =
      .ok (.binaryOp T_LOGICAL_OR (.identifier .tSlot 0)
            (.binaryOp T_LOGICAL_AND (.identifier .tSlot 1) (.identifier .tSlot 2))) := by
  refine ⟨rfl, ?_, rfl⟩
  intro h
  rw [show (make_explicit_subexpressions
        [.operand (.identifier .tSlot 0), .oper T_LOGICAL_AND,
         .operand (.identifier .tSlot 1), .oper T_LOGICAL_OR,
         .operand (.identifier .tSlot 2)]).bind
      (assemble_expression_list 100) =
      .ok (.binaryOp T_LOGICAL_AND (.identifier .tSlot 0)
            (.binaryOp T_LOGICAL_OR (.identifier .tSlot 1) (.identifier .tSlot 2)))
    from rfl] at h
  exact absurd h (by decide)

/-! ## Dropping consumed regions (`_remove_processed_blocks`) -/

/-- The fold of `_remove_processed_blocks`: for each recorded boundary
`(start, end)` keep `blocks[last_end_index+1 : up_to_index]` where
`up_to_index` is `start` when `start == end` and `start + 1` otherwise;
finish with the tail after the last boundary.  `lastEnd` starts at the
Python `-1`. -/
def remove_processed_go (blocks : List Block) :
    List (Nat × Nat) → List Block → Int → List Block
  | [], remains, lastEnd => remains ++ blocks.drop (lastEnd + 1).toNat
  | (s, e) :: rest, remains, lastEnd =>
    let upTo : Nat := if s = e then s else s + 1
    remove_processed_go blocks rest
      (remains ++ (blocks.take upTo).drop (lastEnd + 1).toNat) (e : Int)

/-- `_remove_processed_blocks(blocks, boundaries)`. -/
def remove_processed_blocks (blocks : List Block) (boundaries : List (Nat × Nat)) :
    List Block :=
  remove_processed_go blocks boundaries [] (-1)

/-- A throwaway block used by concrete test inputs. -/
def blk (i : Nat) : Block :=
  { id := i, index := i, contents := [], warp := .endW,
    warpins_count := 0, first_address := 0, last_address := 0 }

/-- Counterexample to claim C7: on a region whose branching end
immediately follows the head, the boundary line 159 of the source
would record is the degenerate `(start_index, end_index - 1) = (s, s)`
- and on such a boundary `_remove_processed_blocks` drops the head
block itself instead of retaining it (`up_to_index` is `start`, not
`start + 1`).  The claim's "including those whose body is empty"
clause is wrong the other way around as well: the reduction of an
empty-body region raises before line 159 ever records its boundary
(see `unwarp_ifs_go`), so such a region is never consumed at all. -/
theorem c7_remove_processed_counterexample :
    remove_processed_blocks [blk 0, blk 1, blk 2] [(0, 0)] = [blk 1, blk 2] ∧
    blk 0 ∉ remove_processed_blocks [blk 0, blk 1, blk 2] [(0, 0)] := by
  constructor
  · rfl
  · decide

/-- The slices `_remove_processed_blocks` keeps when every boundary has
`start ≠ end`: for each boundary `(s, e)` the blocks from just after
the previous boundary's end up to AND INCLUDING the head position `s`,
and after the last boundary the tail from `e + 1` on.  Statement
vocabulary for the C7 theorem; `lastEnd` starts at the Python `-1`. -/
def kept_segments (blocks : List Block) : List (Nat × Nat) → Int → List Block
  | [], lastEnd => blocks.drop (lastEnd + 1).toNat
  | (s, e) :: rest, lastEnd =>
    (blocks.take (s + 1)).drop (lastEnd + 1).toNat ++ kept_segments blocks rest (e : Int)

/-- With no degenerate boundary, the fold of `_remove_processed_blocks`
is the concatenation of the kept segments. -/
theorem remove_processed_go_segments (blocks : List Block) :
    ∀ (bnds : List (Nat × Nat)) (remains : List Block) (lastEnd : Int),
      (∀ q ∈ bnds, q.1 ≠ q.2) →
      remove_processed_go blocks bnds remains lastEnd =
        remains ++ kept_segments blocks bnds lastEnd := by
  intro bnds
  induction bnds with
  | nil => intro remains lastEnd _; rfl
  | cons q rest ih =>
    intro remains lastEnd h
    obtain ⟨s, e⟩ := q
    have hne : s ≠ e := h (s, e) (List.mem_cons_self _ _)
    rw [show remove_processed_go blocks ((s, e) :: rest) remains lastEnd =
        remove_processed_go blocks rest
          (remains ++ (blocks.take (s + 1)).drop (lastEnd + 1).toNat) (e : Int) from by
      simp [remove_processed_go, hne]]
    rw [ih _ _ (fun p hp => h p (List.mem_cons_of_mem _ hp))]
    rw [kept_segments, List.append_assoc]

/-! ## Loop discovery (`_find_all_loops`) -/

/-- The inner `while i < len(blocks)` scan of the repeat-until branch
of `_find_all_loops`: extend through empty blocks, stopping at a
non-empty block (other than the first), an `End` warp, or a backward
target of a different loop; a backward target equal to the current
start advances `start`/`end`/`last_i`.  Returns the final
`(start, end, last_i)`.  The scan index only increases, so the fuel
`blocks.length + 1` supplied by the caller never runs out. -/
def find_loops_scan (blocks : List Block) :
    Nat → Nat → Block → Block → Block → Nat → Except Err (Block × Block × Nat)
  | 0, _, _, _, _, _ => .error .divergence
  | fuel + 1, i, first, start, endB, lastI =>
    if h : i < blocks.length then
      let block := blocks.get ⟨i, h⟩
      if block.id ≠ first.id ∧ block.contents ≠ [] then .ok (start, endB, lastI)
      else if block.warp = .endW then .ok (start, endB, lastI)
      else
        match warp_target block.warp with
        | .error e => .error e
        | .ok t =>
          match lookup_block blocks t with
          | none => .error .dangling
          | some tb =>
            if tb.index < block.index then
              if tb.id = start.id then find_loops_scan blocks fuel (i + 1) first tb block i
              else .ok (start, endB, lastI)
            else find_loops_scan blocks fuel (i + 1) first start endB lastI
    else .ok (start, endB, lastI)

/-- The outer `while i < len(blocks)` loop of `_find_all_loops`,
accumulating discovered `(start, end)` pairs.  The loop index only
increases, so fuel `blocks.length + 1` (supplied by `find_all_loops`)
never runs out; exhaustion would be `Err.divergence`. -/
def find_all_loops_go (blocks : List Block) (repeat_until : Bool) :
    Nat → Nat → List (Block × Block) → Except Err (List (Block × Block))
  | 0, _, _ => .error .divergence
  | fuel + 1, i, loops =>
    if h : i < blocks.length then
      match (blocks.get ⟨i, h⟩).warp with
      | .uncond ty target =>
        if ty = .flow then find_all_loops_go blocks repeat_until fuel (i + 1) loops
        else
          match lookup_block blocks target with
          | none => .error .dangling
          | some tb =>
            if tb.index ≤ (blocks.get ⟨i, h⟩).index then
              if repeat_until then .error (.assertion "")
              else if h2 : i < blocks.length - 1 then
                find_all_loops_go blocks repeat_until fuel (i + 1)
                  (loops ++ [(tb, blocks.get ⟨i + 1, by omega⟩)])
              else .error (.assertion "")
            else find_all_loops_go blocks repeat_until fuel (i + 1) loops
      | .cond _c _tt falseTarget =>
        if repeat_until then
          match lookup_block blocks falseTarget with
          | none => .error .dangling
          | some ftb =>
            if (blocks.get ⟨i, h⟩).index < ftb.index then
              find_all_loops_go blocks repeat_until fuel (i + 1) loops
            else
              match find_loops_scan blocks (blocks.length + 1) i (blocks.get ⟨i, h⟩) ftb
                  (blocks.get ⟨i, h⟩) i with
              | .error e => .error e
              | .ok (start, endB, lastI) =>
                match block_index blocks endB with
                | none => .error .dangling
                | some endIdx =>
                  match blocks.get? (endIdx + 1) with
                  | none => .error .indexErr
                  | some endB2 =>
                    find_all_loops_go blocks repeat_until fuel (lastI + 1)
                      (loops ++ [(start, endB2)])
        else find_all_loops_go blocks repeat_until fuel (i + 1) loops
      | _ => find_all_loops_go blocks repeat_until fuel (i + 1) loops
    else .ok loops

/-- `_find_all_loops(blocks, repeat_until)`: the scan above followed by
`reversed(sorted(loops, key=lambda x: x[0].index))`.  Python's `sorted`
is stable; it is modelled by Mathlib's (stable) `insertionSort`. -/
def find_all_loops (blocks : List Block) (repeat_until : Bool) :
    Except Err (List (Block × Block)) :=
  match find_all_loops_go blocks repeat_until (blocks.length + 1) 0 [] with
  | .error e => .error e
  | .ok loops =>
    .ok ((List.insertionSort (fun a b => a.1.index ≤ b.1.index) loops).reverse)

/-- A block of the non-repeat sweep's record condition: an
unconditional `Jump` whose (dereferenced) target has index at most the
block's own. -/
def is_back_jump (blocks : List Block) (b : Block) : Bool :=
  match b.warp with
  | .uncond .jump t =>
    match lookup_block blocks t with
    | some tb => decide (tb.index ≤ b.index)
    | none => false
  | _ => false

/-- Whether a block carries a conditional warp. -/
def has_cond_warp (b : Block) : Bool :=
  match b.warp with
  | .cond .. => true
  | _ => false

/-- Whether a block's unconditional warp target dereferences. -/
def uncond_resolves (blocks : List Block) (b : Block) : Bool :=
  match b.warp with
  | .uncond _ t => (lookup_block blocks t).isSome
  | _ => true

/-- What the non-repeat sweep records at scan position `j`: the pair
`(target, blocks[j+1])` of a backward unconditional `Jump`. -/
def back_jump_record (blocks : List Block) (j : Nat) (p : Block × Block) : Prop :=
  ∃ (h : j + 1 < blocks.length) (t : Nat),
    (blocks.get ⟨j, by omega⟩).warp = .uncond .jump t ∧
    lookup_block blocks t = some p.1 ∧
    p.1.index ≤ (blocks.get ⟨j, by omega⟩).index ∧
    p.2 = blocks.get ⟨j + 1, h⟩

theorem exists_ge_iff_or {P : Nat → Prop} (i : Nat) :
    (∃ j, i ≤ j ∧ P j) ↔ (P i ∨ ∃ j, i + 1 ≤ j ∧ P j) := by
  constructor
  · rintro ⟨j, hij, hp⟩
    rcases Nat.eq_or_lt_of_le hij with rfl | h
    · exact .inl hp
    · exact .inr ⟨j, h, hp⟩
  · rintro (hp | ⟨j, hij, hp⟩)
    · exact ⟨i, Nat.le_refl i, hp⟩
    · exact ⟨j, by omega, hp⟩

theorem record_iff_of_back (blocks : List Block) (i : Nat) (hi1 : i + 1 < blocks.length)
    (t : Nat) (tb : Block)
    (hw : (blocks.get ⟨i, by omega⟩).warp = .uncond .jump t)
    (hl : lookup_block blocks t = some tb)
    (hle : tb.index ≤ (blocks.get ⟨i, by omega⟩).index) (p : Block × Block) :
    back_jump_record blocks i p ↔ p = (tb, blocks.get ⟨i + 1, hi1⟩) := by
  constructor
  · rintro ⟨hlen, t', hw', hl', hle', hp2⟩
    have ht : t' = t := by rw [hw] at hw'; cases hw'; rfl
    subst ht
    rw [hl] at hl'
    cases hl'
    exact Prod.ext rfl hp2
  · rintro rfl
    exact ⟨hi1, t, hw, hl, hle, rfl⟩

theorem record_false_of_not_jump (blocks : List Block) (i : Nat) (hi : i < blocks.length)
    (hnj : ∀ t, (blocks.get ⟨i, hi⟩).warp ≠ .uncond .jump t) (p : Block × Block) :
    ¬ back_jump_record blocks i p := by
  rintro ⟨hlen, t, hw, _⟩
  exact hnj t hw

theorem record_false_of_forward (blocks : List Block) (i : Nat) (hi : i < blocks.length)
    (t : Nat) (tb : Block)
    (hw : (blocks.get ⟨i, hi⟩).warp = .uncond .jump t)
    (hl : lookup_block blocks t = some tb)
    (hgt : (blocks.get ⟨i, hi⟩).index < tb.index) (p : Block × Block) :
    ¬ back_jump_record blocks i p := by
  rintro ⟨hlen, t', hw', hl', hle', _⟩
  have ht : t' = t := by rw [hw] at hw'; cases hw'; rfl
  subst ht
  rw [hl] at hl'
  cases hl'
  omega

theorem find_all_loops_go_false_spec (blocks : List Block) :
    ∀ (fuel i : Nat) (acc l : List (Block × Block)),
      find_all_loops_go blocks false fuel i acc = .ok l →
      ∀ p, p ∈ l ↔ p ∈ acc ∨ ∃ j, i ≤ j ∧ back_jump_record blocks j p := by
  intro fuel
  induction fuel with
  | zero =>
    intro i acc l hgo
    simp [find_all_loops_go] at hgo
  | succ fuel ih =>
    intro i acc l hgo p
    rw [find_all_loops_go] at hgo
    by_cases hi : i < blocks.length
    · rw [dif_pos hi] at hgo
      rcases hwarp : (blocks.get ⟨i, hi⟩).warp with ⟨ty, target⟩ | ⟨c, tt, ft⟩ | _ | ⟨bo, wo⟩ | ⟨bo, wo⟩
      all_goals rw [hwarp] at hgo
      all_goals dsimp only at hgo
      · -- unconditional warp
        rcases ty with _ | _
        · -- flow
          rw [if_pos rfl] at hgo
          rw [ih (i + 1) acc l hgo p, exists_ge_iff_or i]
          have : ¬ back_jump_record blocks i p :=
            record_false_of_not_jump blocks i hi
              (by intro t heq; rw [hwarp] at heq; simp at heq) p
          tauto
        · -- jump
          rw [if_neg (by decide)] at hgo
          rcases hl : lookup_block blocks target with _ | tb
          all_goals rw [hl] at hgo
          all_goals dsimp only at hgo
          · cases hgo
          · by_cases hle : tb.index ≤ (blocks.get ⟨i, hi⟩).index
            · rw [if_pos hle, if_neg (by decide)] at hgo
              by_cases h2 : i < blocks.length - 1
              · rw [dif_pos h2] at hgo
                rw [ih (i + 1) _ l hgo p, exists_ge_iff_or i,
                  record_iff_of_back blocks i (by omega) target tb hwarp hl hle p]
                simp only [List.mem_append, List.mem_singleton]
                tauto
              · rw [dif_neg h2] at hgo; cases hgo
            · rw [if_neg hle] at hgo
              rw [ih (i + 1) acc l hgo p, exists_ge_iff_or i]
              have : ¬ back_jump_record blocks i p :=
                record_false_of_forward blocks i hi target tb hwarp hl (by omega) p
              tauto
      · -- conditional warp, repeat_until = false
        rw [if_neg (by decide)] at hgo
        rw [ih (i + 1) acc l hgo p, exists_ge_iff_or i]
        have : ¬ back_jump_record blocks i p :=
          record_false_of_not_jump blocks i hi
            (by intro t heq; rw [hwarp] at heq; simp at heq) p
        tauto
      all_goals {
        rw [ih (i + 1) acc l hgo p, exists_ge_iff_or i]
        have : ¬ back_jump_record blocks i p :=
          record_false_of_not_jump blocks i hi
            (by intro t heq; rw [hwarp] at heq; simp at heq) p
        tauto }
    · rw [dif_neg hi] at hgo
      cases hgo
      constructor
      · intro hp
        exact .inl hp
      · rintro (hp | ⟨j, hij, ⟨hlen, _⟩⟩)
        · exact hp
        · omega

instance : IsTotal (Block × Block) (fun a b => a.1.index ≤ b.1.index) :=
  ⟨fun a b => Nat.le_total a.1.index b.1.index⟩

instance : IsTrans (Block × Block) (fun a b => a.1.index ≤ b.1.index) :=
  ⟨fun _ _ _ => Nat.le_trans⟩

/-- Claim C3 (amended): whenever the non-repeat sweep of
`_find_all_loops` returns, the result records exactly the pairs
`(target, next_block_after_jump)` of the unconditional backward `Jump`
blocks (and nothing for any other warp), ordered by non-increasing -
descending, but not necessarily strictly descending - header index, so
inner loops still precede the outer loops they sit in. -/
theorem c3_find_all_loops_non_repeat (blocks : List Block) (l : List (Block × Block))
    (h : find_all_loops blocks false = .ok l) :
    List.Pairwise (fun a b => b.1.index ≤ a.1.index) l ∧
    ∀ p, p ∈ l ↔ ∃ j, back_jump_record blocks j p := by
  rw [find_all_loops] at h
  rcases hgo : find_all_loops_go blocks false (blocks.length + 1) 0 [] with e | loops0
  all_goals rw [hgo] at h
  all_goals dsimp only at h
  · cases h
  · have hl : l = (List.insertionSort (fun a b => a.1.index ≤ b.1.index) loops0).reverse := by
      cases h; rfl
    subst hl
    constructor
    · have hs := List.sorted_insertionSort
        (fun a b : Block × Block => a.1.index ≤ b.1.index) loops0
      exact List.pairwise_reverse.mpr hs
    · intro p
      have hperm := List.perm_insertionSort
        (fun a b : Block × Block => a.1.index ≤ b.1.index) loops0
      rw [List.mem_reverse, hperm.mem_iff,
        find_all_loops_go_false_spec blocks (blocks.length + 1) 0 [] loops0 hgo p]
      simp [Nat.zero_le]

/-- Witness for C3 on a single-block list (no back-edges, empty
result). -/
theorem c3_find_all_loops_non_repeat_witness :
    List.Pairwise (fun a b : Block × Block => b.1.index ≤ a.1.index)
      ([] : List (Block × Block)) ∧
    ∀ p, p ∈ ([] : List (Block × Block)) ↔ ∃ j, back_jump_record [blk 0] j p :=
  c3_find_all_loops_non_repeat [blk 0] [] rfl

/-- Concrete input for the C3 counterexample: two blocks jumping back
to the same header, so two loops share header index 0. -/
def c3b0 : Block :=
  { id := 0, index := 0, contents := [], warp := .uncond .jump 0,
    warpins_count := 0, first_address := 0, last_address := 0 }

/-- See `c3b0`. -/
def c3b1 : Block :=
  { id := 1, index := 1, contents := [], warp := .uncond .jump 0,
    warpins_count := 0, first_address := 0, last_address := 0 }

/-- See `c3b0`. -/
def c3b2 : Block :=
  { id := 2, index := 2, contents := [], warp := .endW,
    warpins_count := 0, first_address := 0, last_address := 0 }

/-- Counterexample to claim C3: with two back-jumps to the same header
(the configuration `_unwarp_loops`' shared-header pre-pass exists to
handle), the returned list has two adjacent entries with equal header
index 0, so it is not ordered by strictly descending header index. -/
theorem c3_find_all_loops_counterexample :
    find_all_loops [c3b0, c3b1, c3b2] false = .ok [(c3b0, c3b2), (c3b0, c3b1)] ∧
    ¬ List.Pairwise (fun a b : Block × Block => b.1.index < a.1.index)
        [(c3b0, c3b2), (c3b0, c3b1)] := by
  constructor
  · rfl
  · intro hpw
    have := List.rel_of_pairwise_cons hpw (List.mem_singleton.mpr rfl)
    simp [c3b0, c3b1, c3b2] at this

theorem is_back_jump_eq_false_not_jump (blocks : List Block) (b : Block)
    (h : ∀ t, b.warp ≠ .uncond .jump t) : is_back_jump blocks b = false := by
  unfold is_back_jump
  rcases hw : b.warp with ⟨ty, t⟩ | ⟨c, tt, ft⟩ | _ | ⟨x, y⟩ | ⟨x, y⟩
  · rcases ty with _ | _
    · rfl
    · exact absurd hw (h t)
  · rfl
  · rfl
  · rfl
  · rfl

theorem is_back_jump_eq_of_jump (blocks : List Block) (b : Block) (t : Nat) (tb : Block)
    (hw : b.warp = .uncond .jump t) (hl : lookup_block blocks t = some tb) :
    is_back_jump blocks b = decide (tb.index ≤ b.index) := by
  unfold is_back_jump
  rw [hw]
  dsimp only
  rw [hl]

/-- The error-propagation lemma behind C10: during the repeat-until
sweep, in a list free of conditional warps (so the repeat-until branch
never consumes anything) whose unconditional targets all dereference,
any remaining backward `Jump` runs into `assert not repeat_until`. -/
theorem find_all_loops_go_true_error (blocks : List Block)
    (hnocond : ∀ b ∈ blocks, has_cond_warp b = false)
    (hres : ∀ b ∈ blocks, uncond_resolves blocks b = true) :
    ∀ (fuel i : Nat) (acc : List (Block × Block)),
      blocks.length ≤ i + fuel →
      (∃ j, i ≤ j ∧ ∃ (hj : j < blocks.length),
        is_back_jump blocks (blocks.get ⟨j, hj⟩) = true) →
      find_all_loops_go blocks true fuel i acc = .error (.assertion "") := by
  intro fuel
  induction fuel with
  | zero =>
    intro i acc hfuel hex
    obtain ⟨j, hij, hj, _⟩ := hex
    omega
  | succ fuel ih =>
    intro i acc hfuel hex
    by_cases hi : i < blocks.length
    · rw [find_all_loops_go, dif_pos hi]
      rcases hwarp : (blocks.get ⟨i, hi⟩).warp with ⟨ty, target⟩ | ⟨c, tt, ft⟩ | _ | ⟨bo, wo⟩ | ⟨bo, wo⟩
      all_goals dsimp only
      · -- unconditional warp
        rcases ty with _ | _
        · -- flow: not a back jump, recurse
          rw [if_pos rfl]
          apply ih (i + 1) acc (by omega)
          obtain ⟨j, hij, hj, hbj⟩ := hex
          rcases Nat.eq_or_lt_of_le hij with rfl | hlt
          · have hbj' : is_back_jump blocks (blocks.get ⟨i, hi⟩) = true := hbj
            rw [is_back_jump_eq_false_not_jump blocks _
              (by intro t heq; rw [hwarp] at heq; simp at heq)] at hbj'
            exact absurd hbj' (by decide)
          · exact ⟨j, hlt, hj, hbj⟩
        · -- jump
          rw [if_neg (by decide)]
          have hmem : (blocks.get ⟨i, hi⟩) ∈ blocks := blocks.get_mem _ _
          have hr := hres _ hmem
          rw [uncond_resolves, hwarp] at hr
          dsimp only at hr
          rcases hl : lookup_block blocks target with _ | tb
          · rw [hl] at hr; simp at hr
          · dsimp only
            by_cases hle : tb.index ≤ (blocks.get ⟨i, hi⟩).index
            · rw [if_pos hle, if_pos rfl]
            · rw [if_neg hle]
              apply ih (i + 1) acc (by omega)
              obtain ⟨j, hij, hj, hbj⟩ := hex
              rcases Nat.eq_or_lt_of_le hij with rfl | hlt
              · have hbj' : is_back_jump blocks (blocks.get ⟨i, hi⟩) = true := hbj
                rw [is_back_jump_eq_of_jump blocks _ target tb hwarp hl] at hbj'
                exact absurd (by simpa using hbj') hle
              · exact ⟨j, hlt, hj, hbj⟩
      · -- conditional warp: excluded by hypothesis
        have hmem : (blocks.get ⟨i, hi⟩) ∈ blocks := blocks.get_mem _ _
        have := hnocond _ hmem
        rw [has_cond_warp, hwarp] at this
        simp at this
      all_goals {
        apply ih (i + 1) acc (by omega)
        obtain ⟨j, hij, hj, hbj⟩ := hex
        rcases Nat.eq_or_lt_of_le hij with rfl | hlt
        · have hbj' : is_back_jump blocks (blocks.get ⟨i, hi⟩) = true := hbj
          rw [is_back_jump_eq_false_not_jump blocks _
            (by intro t heq; rw [hwarp] at heq; simp at heq)] at hbj'
          exact absurd hbj' (by decide)
        · exact ⟨j, hlt, hj, hbj⟩ }
    · obtain ⟨j, hij, hj, _⟩ := hex
      omega

/-- Claim C10 (amended): the repeat-until sweep's
`assert not repeat_until` fires for a backward unconditional `Jump`
reached at the top level of the scan; in a list with no conditional
warps at all (so nothing is consumed by the repeat-until region scan)
any surviving backward `Jump` makes `_find_all_loops(-, True)` fail the
assertion.  (A backward `Jump` sitting inside a repeat-until region is
consumed without any assertion - see the counterexample.) -/
theorem c10_repeat_sweep_asserts (blocks : List Block)
    (hnocond : ∀ b ∈ blocks, has_cond_warp b = false)
    (hres : ∀ b ∈ blocks, uncond_resolves blocks b = true)
    (hback : ∃ j, ∃ (hj : j < blocks.length),
      is_back_jump blocks (blocks.get ⟨j, hj⟩) = true) :
    find_all_loops blocks true = .error (.assertion "") := by
  rw [find_all_loops,
    find_all_loops_go_true_error blocks hnocond hres (blocks.length + 1) 0 []
      (by omega)
      (by obtain ⟨j, hj, hb⟩ := hback; exact ⟨j, Nat.zero_le j, hj, hb⟩)]


/-- Witness for C10: a two-block list whose first block jumps to
itself. -/
theorem c10_repeat_sweep_asserts_witness :
    find_all_loops
      [{ id := 0, index := 0, contents := [], warp := .uncond .jump 0,
         warpins_count := 0, first_address := 0, last_address := 0 },
       { id := 1, index := 1, contents := [], warp := .endW,
         warpins_count := 0, first_address := 0, last_address := 0 }] true =
      .error (.assertion "") :=
  c10_repeat_sweep_asserts _ (by decide) (by decide) ⟨0, by decide, by decide⟩

/-- Concrete input for the C10 counterexample: a repeat-until-style
conditional back-edge at block 0, a plain backward `Jump` at block 1
(inside the region scan's reach, with empty contents), and a final
`End` block. -/
def c10b0 : Block :=
  { id := 0, index := 0, contents := [], warp := .cond (.identifier .tSlot 0) 1 0,
    warpins_count := 0, first_address := 0, last_address := 0 }

/-- See `c10b0`. -/
def c10b1 : Block :=
  { id := 1, index := 1, contents := [], warp := .uncond .jump 0,
    warpins_count := 0, first_address := 0, last_address := 0 }

/-- See `c10b0`. -/
def c10b2 : Block :=
  { id := 2, index := 2, contents := [], warp := .endW,
    warpins_count := 0, first_address := 0, last_address := 0 }

/-- Counterexample to claim C10: block 1 carries a plain backward
`Jump` (`target.index = 0 ≤ 1`), yet the repeat-until sweep returns
normally - the jump is consumed by the expression scan of the
conditional region headed at block 0 - so a surviving backward `Jump`
does not always trigger the assertion. -/
theorem c10_find_all_loops_counterexample :
    find_all_loops [c10b0, c10b1, c10b2] true = .ok [(c10b0, c10b2)] ∧
    c10b1.warp = .uncond .jump 0 ∧
    is_back_jump [c10b0, c10b1, c10b2] c10b1 = true :=
  ⟨rfl, rfl, rfl⟩

/-! ## Break resolution (`_gather_possible_ends`, `_unwarp_breaks`) -/

/-- `_gather_possible_ends(block)`: the block itself plus every block
reachable from it through an unbroken chain of unconditional `Jump`s
(collected as ids; Python uses a set, only membership matters).  A
cyclic jump chain loops forever in Python; the caller's fuel
`env.length + 1` exceeds the length of any acyclic chain, so exhaustion
models that divergence. -/
def gather_possible_ends (env : List Block) :
    Nat → Block → List Nat → Except Err (List Nat)
  | 0, _, _ => .error .divergence
  | fuel + 1, block, ends =>
    match block.warp with
    | .uncond .jump t =>
      match lookup_block env t with
      | none => .error .dangling
      | some tb => gather_possible_ends env fuel tb (ends ++ [tb.id])
    | _ => .ok ends

/-- Break discovery tag `BREAK_INFINITE`. -/
def BREAK_INFINITE : Nat := 0

/-- Break discovery tag `BREAK_ONE_USE`. -/
def BREAK_ONE_USE : Nat := 1

/-- The first loop of `_unwarp_breaks`: walk the body; any block with
an unconditional warp whose target is outside `blocks_set` must target
one of `ends` (else the unsupported-GOTO assert fires) and becomes a
break - appended `Break` statement, warp retargeted to the next body
block (or `End` at the tail), with a split through a freshly created
block when the jumping block has incoming warps.  Iteration is
structural over the remaining body: the textually next original block
is the head of `rest`, and `rest = []` is Python's
`i + 1 == len(blocks)`. -/
def breaks_phase1 (blocks_set ends : List Nat) :
    List Block → List Block → List Nat → Nat →
    Except Err (List Block × List Nat × Nat)
  | [], patched, breaks, fresh => .ok (patched, breaks, fresh)
  | block :: rest, patched, breaks, fresh =>
    match block.warp with
    | .uncond _ty target =>
      if target ∈ blocks_set then
        breaks_phase1 blocks_set ends rest (patched ++ [block]) breaks fresh
      else if target ∈ ends then
        if block.warpins_count ≠ 0 then
          let newb := { create_next_block block fresh with
                        warpins_count := block.warpins_count }
          let block2 := set_flow_to block newb.id
          let nb1 := { newb with contents := newb.contents ++ [.breakStat] }
          let nb2 := match rest with
            | [] => { nb1 with warp := .endW }
            | nxt :: _ => set_flow_to nb1 nxt.id
          breaks_phase1 blocks_set ends rest (patched ++ [block2, nb2])
            (breaks ++ [nb2.id]) (fresh + 1)
        else
          let b1 := { block with contents := block.contents ++ [.breakStat] }
          let b2 := match rest with
            | [] => { b1 with warp := .endW }
            | nxt :: _ => set_flow_to b1 nxt.id
          breaks_phase1 blocks_set ends rest (patched ++ [b2])
            (breaks ++ [b2.id]) fresh
      else .error (.assertion goto_msg)
    | _ => breaks_phase1 blocks_set ends rest (patched ++ [block]) breaks fresh

/-- The second loop of `_unwarp_breaks`, over `reversed(blocks)` (the
input here is already reversed; `out` rebuilds original order): break
blocks push onto the break stack; escaping conditional warps (false
target outside `blocks_set`, asserted to be in `ends`) are retargeted
to the pending or top-of-stack break, `ONE_USE` breaks being popped.
Returns the rebuilt list, the remaining break stack and the `warpsout`
ids. -/
def breaks_phase2 (blocks_set ends breaks : List Nat) :
    List Block → List Block → List (Nat × Nat) → List Nat → Option (Nat × Nat) →
    Except Err (List Block × List (Nat × Nat) × List Nat)
  | [], out, bstack, wout, _pending => .ok (out, bstack, wout)
  | block :: rest, out, bstack, wout, pending =>
    if block.id ∈ breaks then
      let entry := if block.warpins_count = 0 then (BREAK_ONE_USE, block.id)
                   else (BREAK_INFINITE, block.id)
      breaks_phase2 blocks_set ends breaks rest (block :: out) (entry :: bstack) wout none
    else
      match block.warp with
      | .cond c tt ft =>
        if ft ∈ blocks_set then
          breaks_phase2 blocks_set ends breaks rest (block :: out) bstack wout pending
        else if ft ∈ ends then
          match pending with
          | none =>
            match bstack with
            | [] => .error (.assertion "")
            | top :: bs2 =>
              let block2 := { block with warp := .cond c tt top.2 }
              if top.1 = BREAK_ONE_USE then
                breaks_phase2 blocks_set ends breaks rest (block2 :: out) bs2 []
                  (if block2.contents ≠ [] then none else some top)
              else
                breaks_phase2 blocks_set ends breaks rest (block2 :: out) (top :: bs2)
                  (block2.id :: wout) none
          | some pb =>
            let block2 := { block with warp := .cond c tt pb.2 }
            breaks_phase2 blocks_set ends breaks rest (block2 :: out) bstack
              (block2.id :: wout) (if block2.contents ≠ [] then none else some pb)
        else .error (.assertion goto_msg)
      | w =>
        breaks_phase2 blocks_set ends breaks rest (block :: out) bstack wout
          (if is_flow w then none else pending)

/-- One `_set_target` mutation of the final "pray for the best" loop,
applied to the block with the given id. -/
def update_block_target (bid t : Nat) : List Block → Except Err (List Block)
  | [] => .ok []
  | b :: rest =>
    if b.id = bid then
      match set_target b.warp t with
      | .error e => .error e
      | .ok w =>
        match update_block_target bid t rest with
        | .error e => .error e
        | .ok rest2 => .ok ({ b with warp := w } :: rest2)
    else
      match update_block_target bid t rest with
      | .error e => .error e
      | .ok rest2 => .ok (b :: rest2)

/-- The trailing `while warpsout and breaks_stack` loop of
`_unwarp_breaks`: pop pairs and retarget. -/
def breaks_final_fix : List Nat → List (Nat × Nat) → List Block →
    Except Err (List Block)
  | [], _, out => .ok out
  | _ :: _, [], out => .ok out
  | wid :: ws, (_k, bid) :: bs, out =>
    match update_block_target wid bid out with
    | .error e => .error e
    | .ok out2 => breaks_final_fix ws bs out2

/-- `_unwarp_breaks(start, blocks, next_block)`.  `env` is the ambient
statements-list used to dereference jump chains; `fresh` supplies the
ids of blocks created by splits.  Note the early return: when the first
loop finds no break, the function returns before the conditional warps
are ever examined. -/
def unwarp_breaks (env : List Block) (start : Block) (blocks : List Block)
    (next_block : Block) (fresh : Nat) : Except Err (List Block) :=
  let blocks_set := ([start] ++ blocks).map Block.id
  match gather_possible_ends env (env.length + 1) next_block [next_block.id] with
  | .error e => .error e
  | .ok ends =>
    match breaks_phase1 blocks_set ends blocks [] [] fresh with
    | .error e => .error e
    | .ok (patched, breaks, _fresh2) =>
      if breaks = [] then .ok patched
      else
        match breaks_phase2 blocks_set ends breaks patched.reverse [] [] [] none with
        | .error e => .error e
        | .ok (out, bstack, wout) =>
          breaks_final_fix wout (bstack.dropWhile (fun p => p.1 = BREAK_INFINITE)) out

/-! ## If-region discovery (`_find_branching_end`, `_extract_if_body`,
`_unwarp_ifs`) -/

/-- The loop of `_find_branching_end`: track the maximal-index warp
target, returning the current `end` as soon as some block flows into
it.  `_get_target` asserts on `End` warps, so a scan that reaches the
final `End` block without the early return fails that assert. -/
def find_branching_end_go (env : List Block) : List Block → Block → Except Err Block
  | [], endB => .ok endB
  | block :: rest, endB =>
    match warp_target block.warp with
    | .error e => .error e
    | .ok t =>
      match lookup_block env t with
      | none => .error .dangling
      | some target =>
        if is_flow block.warp ∧ target.id = endB.id then .ok endB
        else if endB.index < target.index then find_branching_end_go env rest target
        else find_branching_end_go env rest endB

/-- `_find_branching_end(blocks, topmost_end)` (the parameter
`topmost_end` is unused in the source as well). -/
def find_branching_end (env : List Block) (blocks : List Block)
    (_topmost_end : Option Block) : Except Err Block :=
  match blocks with
  | [] => .error .indexErr
  | b :: _ => find_branching_end_go env blocks b

/-- `_extract_if_body(start_index, blocks, topmost_end)`: `ok none`
models the Python `return None, None, None` taken when the branching
end is not in the list (and differs from `topmost_end`) - the case
`_unwarp_ifs` answers with the unsupported-GOTO `NotImplementedError`. -/
def extract_if_body (env : List Block) (start_index : Nat) (blocks : List Block)
    (topmost_end : Option Block) : Except Err (Option (List Block × Block × Nat)) :=
  match find_branching_end env (blocks.drop start_index) topmost_end with
  | .error e => .error e
  | .ok endB =>
    match block_index blocks endB with
    | some end_index =>
      .ok (some ((blocks.take end_index).drop (start_index + 1), endB, end_index))
    | none =>
      match topmost_end with
      | some tm =>
        if endB.id = tm.id then
          .ok (some (blocks.drop (start_index + 1), endB, blocks.length))
        else .ok none
      | none => .ok none

/-- The scan loop of `_unwarp_ifs`: skip `Flow` heads; on any other
head extract the branching region, raising the unsupported-GOTO
`NotImplementedError` when the region's end cannot be located.  For an
extracted region with non-empty body the loop records the boundary
`(start_index, end_index - 1)` (line 159 of the source), rewrites the
head's warp to an unconditional `Flow` into the end block (lines
161-163) and resumes the scan at `end_index`; on exit the recorded
boundaries are dropped by `_remove_processed_blocks`.  The statement
reduction of the region (`_try_unwarp_logical_expression` /
`_unwarp_if_statement`, lines 151-157) is not embedded: by inspection
it appends the reduced statement to the head block and otherwise
mutates only contents, and warps of blocks interior to the consumed
range, so the embedding leaves the list unchanged there - theorems
about this function therefore assert nothing about block contents, and
a completed run of the model corresponds to a Python run in which
every region reduction returned normally.  A region with EMPTY body
never completes in Python: `_unwarp_logical_expression` fails
`assert slot is not None` on an empty body and `_extract_if_expression`
reads its loop variable `i` without an iteration having bound it, in
both cases before line 159 records the boundary; which of the two is
raised depends on warp attributes set outside this file's source, so
the embedding refuses that case with `Err.notModelled` instead of
choosing an exception class. -/
def unwarp_ifs_go (env : List Block) (topmost_end : Option Block) :
    Nat → List Block → Nat → List (Nat × Nat) → Except Err (List Block)
  | 0, _, _, _ => .error .divergence
  | fuel + 1, blocks, start_index, boundaries =>
    if h : start_index < blocks.length - 1 then
      if is_flow (blocks.get ⟨start_index, by omega⟩).warp then
        unwarp_ifs_go env topmost_end fuel blocks (start_index + 1) boundaries
      else
        match extract_if_body env start_index blocks topmost_end with
        | .error e => .error e
        | .ok none => .error (.notImplemented goto_msg)
        | .ok (some (body, endB, end_index)) =>
          match body with
          | [] => .error .notModelled
          | _ :: _ =>
            unwarp_ifs_go env topmost_end fuel
              (blocks.set start_index
                (set_flow_to (blocks.get ⟨start_index, by omega⟩) endB.id))
              end_index (boundaries ++ [(start_index, end_index - 1)])
    else .ok (remove_processed_blocks blocks boundaries)

/-- `_unwarp_ifs(blocks, top_end, topmost_end)` (like the source, the
`top_end` parameter is unused); see `unwarp_ifs_go` for what is and is
not embedded. -/
def unwarp_ifs (env : List Block) (blocks : List Block)
    (_top_end topmost_end : Option Block) : Except Err (List Block) :=
  unwarp_ifs_go env topmost_end (blocks.length + 1) blocks 0 []

theorem breaks_phase1_goto (blocks_set ends : List Nat) :
    ∀ (rest patched : List Block) (breaks : List Nat) (fresh : Nat),
      (∃ b ∈ rest, ∃ ty t, b.warp = .uncond ty t ∧ t ∉ blocks_set ∧ t ∉ ends) →
      breaks_phase1 blocks_set ends rest patched breaks fresh =
        .error (.assertion goto_msg) := by
  intro rest
  induction rest with
  | nil =>
    rintro _ _ _ ⟨b, hb, _⟩
    cases hb
  | cons block rest ih =>
    intro patched breaks fresh hex
    obtain ⟨b, hb, ty, t, hw, hns, hne⟩ := hex
    rw [breaks_phase1]
    rcases List.mem_cons.mp hb with rfl | hbrest
    · rw [hw]
      dsimp only
      rw [if_neg hns, if_neg hne]
    · rcases hwb : block.warp with ⟨ty2, t2⟩ | ⟨c, tt, ft⟩ | _ | ⟨x, y⟩ | ⟨x, y⟩
      all_goals try dsimp only
      · by_cases h1 : t2 ∈ blocks_set
        · rw [if_pos h1]
          exact ih _ _ _ ⟨b, hbrest, ty, t, hw, hns, hne⟩
        · by_cases h2 : t2 ∈ ends
          · rw [if_neg h1, if_pos h2]
            by_cases h3 : block.warpins_count ≠ 0
            · rw [if_pos h3]
              exact ih _ _ _ ⟨b, hbrest, ty, t, hw, hns, hne⟩
            · rw [if_neg h3]
              exact ih _ _ _ ⟨b, hbrest, ty, t, hw, hns, hne⟩
          · rw [if_neg h1, if_neg h2]
      all_goals exact ih _ _ _ ⟨b, hbrest, ty, t, hw, hns, hne⟩

/-- The `_unwarp_ifs` scan reaches an extraction failure through a
prefix of `Flow` heads and raises the unsupported-GOTO error. -/
theorem unwarp_ifs_go_goto (env blocks : List Block) (i : Nat)
    (hi : i < blocks.length - 1)
    (hflow : ∀ j (hj : j < i), is_flow (blocks.get ⟨j, by omega⟩).warp = true)
    (hnot : is_flow (blocks.get ⟨i, by omega⟩).warp = false)
    (hext : extract_if_body env i blocks none = .ok none) :
    ∀ (fuel j : Nat) (bnds : List (Nat × Nat)),
      blocks.length ≤ j + fuel → j ≤ i →
      unwarp_ifs_go env none fuel blocks j bnds =
        .error (.notImplemented goto_msg) := by
  intro fuel
  induction fuel with
  | zero =>
    intro j bnds hfuel hji
    omega
  | succ fuel ih =>
    intro j bnds hfuel hji
    rw [unwarp_ifs_go]
    have hjlen : j < blocks.length - 1 := by omega
    rw [dif_pos hjlen]
    rcases Nat.eq_or_lt_of_le hji with rfl | hlt
    · rw [if_neg (fun hc => absurd (hnot.symm.trans hc) (by decide))]
      rw [show extract_if_body env j blocks none = .ok none from hext]
    · rw [if_pos (hflow j hlt)]
      exact ih (j + 1) bnds (by omega) (by omega)

/-- Claim C2 (amended): the unsupported-GOTO failures of break
resolution and if extraction.  First conjunct: in `_unwarp_breaks`, any
block with an unconditional warp whose target is neither in the body
(plus loop header) nor in the post-loop jump-chain closure fails the
`"GOTO statements are not supported"` assert.  Second conjunct:
`_unwarp_ifs` raises `NotImplementedError` with the same diagnostic
when the first non-`Flow` head's branching end cannot be located in the
list.  (For escaping *conditional* warps the check is NOT
unconditional: it only happens when phase one materialised at least one
break - see the counterexample.) -/
theorem c2_unsupported_goto (env : List Block) :
    (∀ (start : Block) (blocks : List Block) (next_block : Block) (fresh : Nat)
       (ends : List Nat),
       gather_possible_ends env (env.length + 1) next_block [next_block.id] = .ok ends →
       (∃ b ∈ blocks, ∃ ty t, b.warp = .uncond ty t ∧
         t ∉ ([start] ++ blocks).map Block.id ∧ t ∉ ends) →
       unwarp_breaks env start blocks next_block fresh =
         .error (.assertion goto_msg)) ∧
    (∀ (blocks : List Block) (i : Nat) (hi : i < blocks.length - 1),
       (∀ j (hj : j < i), is_flow (blocks.get ⟨j, by omega⟩).warp = true) →
       is_flow (blocks.get ⟨i, by omega⟩).warp = false →
       extract_if_body env i blocks none = .ok none →
       unwarp_ifs env blocks none none = .error (.notImplemented goto_msg)) := by
  constructor
  · intro start blocks next_block fresh ends hg hbad
    rw [unwarp_breaks, hg]
    dsimp only
    rw [breaks_phase1_goto _ _ blocks [] [] fresh hbad]
  · intro blocks i hi hflow hnot hext
    exact unwarp_ifs_go_goto env blocks i hi hflow hnot hext
      (blocks.length + 1) 0 [] (by omega) (Nat.zero_le i)

/-- Concrete blocks for the C2 witness and counterexample. -/
def c2s : Block :=
  { id := 10, index := 0, contents := [], warp := .endW,
    warpins_count := 0, first_address := 0, last_address := 0 }

/-- A body block whose unconditional jump escapes to nowhere. -/
def c2bj : Block :=
  { id := 11, index := 1, contents := [], warp := .uncond .jump 99,
    warpins_count := 0, first_address := 0, last_address := 0 }

/-- The post-loop block of the C2 witness. -/
def c2nb : Block :=
  { id := 20, index := 2, contents := [], warp := .endW,
    warpins_count := 0, first_address := 0, last_address := 0 }

/-- Head of the C2 ifs-witness list: a conditional whose false target
is the external block `c2ext`. -/
def c2h0 : Block :=
  { id := 0, index := 0, contents := [], warp := .cond (.identifier .tSlot 0) 1 5,
    warpins_count := 0, first_address := 0, last_address := 0 }

/-- Second block of the C2 ifs-witness list: flows into `c2ext`. -/
def c2h1 : Block :=
  { id := 1, index := 1, contents := [], warp := .uncond .flow 5,
    warpins_count := 0, first_address := 0, last_address := 0 }

/-- Final block of the C2 ifs-witness list. -/
def c2h2 : Block :=
  { id := 2, index := 2, contents := [], warp := .endW,
    warpins_count := 0, first_address := 0, last_address := 0 }

/-- A block outside the C2 ifs-witness statements-list (the branching
end that cannot be located in it). -/
def c2ext : Block :=
  { id := 5, index := 9, contents := [], warp := .endW,
    warpins_count := 0, first_address := 0, last_address := 0 }

/-- Witness for C2: both failure modes at concrete inputs. -/
theorem c2_unsupported_goto_witness :
    unwarp_breaks [c2s, c2bj, c2nb] c2s [c2bj] c2nb 50 =
      .error (.assertion goto_msg) ∧
    unwarp_ifs [c2h0, c2h1, c2h2, c2ext] [c2h0, c2h1, c2h2] none none =
      .error (.notImplemented goto_msg) := by
  constructor
  · exact (c2_unsupported_goto [c2s, c2bj, c2nb]).1 c2s [c2bj] c2nb 50 [20] rfl
      ⟨c2bj, by simp, .jump, 99, rfl, by decide, by decide⟩
  · exact (c2_unsupported_goto [c2h0, c2h1, c2h2, c2ext]).2 [c2h0, c2h1, c2h2] 0
      (by decide) (fun j hj => absurd hj (Nat.not_lt_zero j)) rfl rfl

/-- Body block of the C2 counterexample: an escaping conditional warp
(false target 99 is neither in the body nor among the possible ends). -/
def c2x1 : Block :=
  { id := 1, index := 1, contents := [], warp := .cond (.primitive .tTrue) 2 99,
    warpins_count := 0, first_address := 0, last_address := 0 }

/-- Counterexample to claim C2: a loop body whose only escape is a
conditional warp to an unsupported target.  Because no unconditional
jump escapes, phase one finds no break and `_unwarp_breaks` returns
before the conditional is ever checked: no unsupported-GOTO error is
raised. -/
theorem c2_unsupported_goto_counterexample :
    c2x1.warp = .cond (.primitive .tTrue) 2 99 ∧
    (99 : Nat) ∉ ([c2s] ++ [c2x1]).map Block.id ∧
    gather_possible_ends [c2s, c2x1, c2nb] 4 c2nb [c2nb.id] = .ok [20] ∧
    (99 : Nat) ∉ [20] ∧
    unwarp_breaks [c2s, c2x1, c2nb] c2s [c2x1] c2nb 7 = .ok [c2x1] := by
  refine ⟨rfl, by decide, rfl, by decide, rfl⟩

/-! ## Region consumption by `_unwarp_ifs` (claim C7) -/

/-- A found index of `findIdx?` is in range and satisfies the
predicate. -/
theorem findIdx?_some_spec {α} (p : α → Bool) (l : List α) (i : Nat)
    (h : l.findIdx? p = some i) :
    ∃ hl : i < l.length, p (l.get ⟨i, hl⟩) = true := by
  rw [List.findIdx?_eq_some_iff_findIdx_eq] at h
  obtain ⟨hl, hf⟩ := h
  refine ⟨hl, ?_⟩
  have hw : l.findIdx p < l.length := by omega
  have hg := @List.findIdx_getElem _ p l hw
  simpa [List.get_eq_getElem, hf] using hg

/-- Inversion of a successful `_extract_if_body` (with no
`topmost_end`): the body is the slice between head and end, and the
end block was located in the list. -/
theorem extract_if_body_some (env blocks : List Block) (i : Nat)
    (body : List Block) (endB : Block) (endIdx : Nat)
    (h : extract_if_body env i blocks none = .ok (some (body, endB, endIdx))) :
    body = (blocks.take endIdx).drop (i + 1) ∧
      block_index blocks endB = some endIdx := by
  rw [extract_if_body] at h
  rcases hfb : find_branching_end env (blocks.drop i) none with e | endB2
  · rw [hfb] at h
    cases h
  · rw [hfb] at h
    dsimp only at h
    rcases hbi : block_index blocks endB2 with _ | k
    · rw [hbi] at h
      dsimp only at h
      simp at h
    · rw [hbi] at h
      dsimp only at h
      simp only [Except.ok.injEq, Option.some.injEq, Prod.mk.injEq] at h
      obtain ⟨hb, he, hk⟩ := h
      subst he
      subst hk
      exact ⟨hb.symm, hbi⟩

/-- Run-level invariant of the `_unwarp_ifs` scan: a completed run
from position `i` produced the input list with the head of each newly
consumed region rewritten to `Flow` into its end block, handed to
`_remove_processed_blocks` under the accumulated boundaries; every new
boundary `(s, e)` satisfies `i ≤ s < e` (non-empty body) with its end
in range, and boundaries are disjoint and increasing. -/
theorem unwarp_ifs_go_spec (env : List Block) :
    ∀ (fuel : Nat) (blocks : List Block) (i : Nat) (bnds : List (Nat × Nat))
      (result : List Block),
      unwarp_ifs_go env none fuel blocks i bnds = .ok result →
      ∃ (blocks2 : List Block) (bnds2 : List (Nat × Nat)),
        result = remove_processed_blocks blocks2 (bnds ++ bnds2) ∧
        blocks2.length = blocks.length ∧
        (∀ q ∈ bnds2, i ≤ q.1 ∧ q.1 < q.2 ∧ q.2 + 1 < blocks.length) ∧
        List.Chain' (fun a b => a.2 < b.1) bnds2 ∧
        (∀ (p : Nat) (hp : p < blocks.length) (hp2 : p < blocks2.length),
          (∀ q ∈ bnds2, p ≠ q.1) → blocks2.get ⟨p, hp2⟩ = blocks.get ⟨p, hp⟩) ∧
        (∀ q ∈ bnds2, ∃ (h1 : q.1 < blocks.length) (h1b : q.1 < blocks2.length)
            (h2 : q.2 + 1 < blocks.length),
          blocks2.get ⟨q.1, h1b⟩ =
            set_flow_to (blocks.get ⟨q.1, h1⟩) ((blocks.get ⟨q.2 + 1, h2⟩).id)) := by
  intro fuel
  induction fuel with
  | zero =>
    intro blocks i bnds result hgo
    rw [unwarp_ifs_go] at hgo
    cases hgo
  | succ fuel ih =>
    intro blocks i bnds result hgo
    rw [unwarp_ifs_go] at hgo
    by_cases hlt : i < blocks.length - 1
    · rw [dif_pos hlt] at hgo
      by_cases hfl : is_flow (blocks.get ⟨i, by omega⟩).warp = true
      · rw [if_pos hfl] at hgo
        obtain ⟨blocks2, bnds2, h1, h2, h3, h4, h5, h6⟩ := ih blocks (i + 1) bnds result hgo
        exact ⟨blocks2, bnds2, h1, h2,
          fun q hq => ⟨by have := (h3 q hq).1; omega, (h3 q hq).2.1, (h3 q hq).2.2⟩,
          h4, h5, h6⟩
      · rw [if_neg hfl] at hgo
        rcases hext : extract_if_body env i blocks none with e | _ | ⟨body, endB, endIdx⟩
        · rw [hext] at hgo
          cases hgo
        · rw [hext] at hgo
          dsimp only at hgo
          cases hgo
        · rw [hext] at hgo
          dsimp only at hgo
          rcases body with _ | ⟨b0, brest⟩
          · dsimp only at hgo
            cases hgo
          · dsimp only at hgo
            obtain ⟨hbody, hbi⟩ := extract_if_body_some env blocks i _ endB endIdx hext
            have hbi2 : blocks.findIdx? (fun x => x.id = endB.id) = some endIdx := hbi
            obtain ⟨hEndLt, hEndId⟩ := findIdx?_some_spec _ blocks endIdx hbi2
            have hEndId2 : (blocks.get ⟨endIdx, hEndLt⟩).id = endB.id := by
              exact of_decide_eq_true hEndId
            have hpos : 0 < ((blocks.take endIdx).drop (i + 1)).length := by
              rw [← hbody]
              simp
            have hi2 : i + 1 < endIdx := by
              simp [List.length_drop, List.length_take] at hpos
              omega
            obtain ⟨blocks2, bnds2, h1, h2, h3, h4, h5, h6⟩ := ih _ endIdx _ result hgo
            have h2' : blocks2.length = blocks.length := by simpa using h2
            refine ⟨blocks2, (i, endIdx - 1) :: bnds2, ?_, h2', ?_, ?_, ?_, ?_⟩
            · rw [h1, List.append_assoc]
              rfl
            · intro q hq
              rcases List.mem_cons.mp hq with rfl | hq2
              · dsimp only
                omega
              · obtain ⟨hqa, hqb, hqc⟩ := h3 q hq2
                exact ⟨by omega, hqb, by simpa using hqc⟩
            · rcases bnds2 with _ | ⟨q0, rest2⟩
              · simp
              · rw [List.chain'_cons]
                refine ⟨?_, h4⟩
                have := (h3 q0 (List.mem_cons_self _ _)).1
                dsimp only
                omega
            · intro p hp hp2 hne
              have hpi : p ≠ i := hne (i, endIdx - 1) (List.mem_cons_self _ _)
              have h5' := h5 p (by simpa using hp) hp2
                (fun q hq => hne q (List.mem_cons_of_mem _ hq))
              rw [h5']
              have hpi2 : i ≠ p := fun hc => hpi hc.symm
              simp [List.get_eq_getElem, List.getElem_set_ne, hpi2]
            · intro q hq
              rcases List.mem_cons.mp hq with rfl | hq2
              · dsimp only
                have hipos : i < blocks.length := by omega
                have hset : ∀ q2 ∈ bnds2, i ≠ q2.1 := by
                  intro q2 hq2
                  have := (h3 q2 hq2).1
                  omega
                have h5i := h5 i (by simpa using hipos) (by omega) hset
                have hE : endIdx - 1 + 1 = endIdx := by omega
                refine ⟨hipos, by omega, by omega, ?_⟩
                rw [h5i]
                simp only [List.get_eq_getElem, List.getElem_set_self, hE]
                rw [show (blocks[endIdx]).id = endB.id from hEndId2]
              · obtain ⟨ha, hab, hb, heq⟩ := h6 q hq2
                have hq1i : endIdx ≤ q.1 := (h3 q hq2).1
                have hq12 : q.1 < q.2 := (h3 q hq2).2.1
                have hlq2 : q.2 + 1 < blocks.length := by simpa using hb
                have hlq1 : q.1 < blocks.length := by omega
                refine ⟨hlq1, hab, hlq2, ?_⟩
                rw [heq]
                have hne1 : i ≠ q.1 := by omega
                have hne2 : i ≠ q.2 + 1 := by omega
                simp [List.get_eq_getElem, List.getElem_set_ne, hne1, hne2]
    · rw [dif_neg hlt] at hgo
      cases hgo
      refine ⟨blocks, [], by rw [List.append_nil], rfl, ?_, ?_, ?_, ?_⟩
      · intro q hq
        cases hq
      · exact List.chain'_nil
      · intro p hp hp2 _
        rfl
      · intro q hq
        cases hq

/-- Head of the C7 witness list: a conditional branching over one body
block to the end block. -/
def c7h : Block :=
  { id := 0, index := 0, contents := [], warp := .cond (.identifier .tSlot 0) 1 2,
    warpins_count := 0, first_address := 0, last_address := 0 }

/-- Body block of the C7 witness region: flows into the end block. -/
def c7b : Block :=
  { id := 1, index := 1, contents := [], warp := .uncond .flow 2,
    warpins_count := 0, first_address := 0, last_address := 0 }

/-- End block of the C7 witness region. -/
def c7e : Block :=
  { id := 2, index := 2, contents := [], warp := .endW,
    warpins_count := 0, first_address := 0, last_address := 0 }

/-- Claim C7 (amended): every region consumed by a completed
`_unwarp_ifs` run has a non-empty body and is recorded as a boundary
`(s, e)` with `s < e`; the list handed to `_remove_processed_blocks` is
the input with exactly the consumed heads rewritten, each head's warp
becoming an unconditional `Flow` into the block at the region end
`e + 1`; and with every boundary non-degenerate,
`_remove_processed_blocks` keeps each head (its segment runs up to and
including position `s`) and drops exactly the interior positions
`s + 1 .. e` - so every consumed region keeps its rewritten head and
loses every other block of the consumed range.  A region whose
branching end immediately follows the head (empty body) is never
consumed: its reduction raises before line 159 records the degenerate
boundary `(s, s)` - had that boundary been recorded,
`_remove_processed_blocks` would have dropped the head itself (final
conjunct, exhibited by the counterexample). -/
theorem c7_unwarp_ifs_region_retention :
    (∀ (env blocks result : List Block),
      unwarp_ifs env blocks none none = .ok result →
      ∃ (blocks2 : List Block) (bnds : List (Nat × Nat)),
        result = remove_processed_blocks blocks2 bnds ∧
        blocks2.length = blocks.length ∧
        (∀ q ∈ bnds, q.1 < q.2 ∧ q.2 + 1 < blocks.length) ∧
        List.Chain' (fun a b => a.2 < b.1) bnds ∧
        (∀ (p : Nat) (hp : p < blocks.length) (hp2 : p < blocks2.length),
          (∀ q ∈ bnds, p ≠ q.1) → blocks2.get ⟨p, hp2⟩ = blocks.get ⟨p, hp⟩) ∧
        (∀ q ∈ bnds, ∃ (h1 : q.1 < blocks.length) (h1b : q.1 < blocks2.length)
            (h2 : q.2 + 1 < blocks.length),
          blocks2.get ⟨q.1, h1b⟩ =
            set_flow_to (blocks.get ⟨q.1, h1⟩) ((blocks.get ⟨q.2 + 1, h2⟩).id))) ∧
    (∀ (bs : List Block) (bnds : List (Nat × Nat)),
      (∀ q ∈ bnds, q.1 ≠ q.2) →
      remove_processed_blocks bs bnds = kept_segments bs bnds (-1)) ∧
    (∀ (bs : List Block) (s e : Nat), s < e →
      remove_processed_blocks bs [(s, e)] = bs.take (s + 1) ++ bs.drop (e + 1)) ∧
    (∀ (bs : List Block) (k : Nat),
      remove_processed_blocks bs [(k, k)] = bs.take k ++ bs.drop (k + 1)) := by
  refine ⟨?_, ?_, ?_, ?_⟩
  · intro env blocks result h
    rw [unwarp_ifs] at h
    obtain ⟨blocks2, bnds2, h1, h2, h3, h4, h5, h6⟩ :=
      unwarp_ifs_go_spec env (blocks.length + 1) blocks 0 [] result h
    exact ⟨blocks2, bnds2, by simpa using h1, h2,
      fun q hq => ⟨(h3 q hq).2.1, (h3 q hq).2.2⟩, h4, h5, h6⟩
  · intro bs bnds h
    rw [remove_processed_blocks, remove_processed_go_segments bs bnds [] (-1) h]
    rfl
  · intro bs s e hse
    have hne : s ≠ e := Nat.ne_of_lt hse
    have h1 : ((-1 : Int) + 1).toNat = 0 := by decide
    have h2 : (((e : Nat) : Int) + 1).toNat = e + 1 := by omega
    simp [remove_processed_blocks, remove_processed_go, hne, h1, h2]
  · intro bs k
    have h1 : ((-1 : Int) + 1).toNat = 0 := by decide
    have h2 : (((k : Nat) : Int) + 1).toNat = k + 1 := by omega
    simp [remove_processed_blocks, remove_processed_go, h1, h2]

/-- Witness for C7: a three-block region (head, one body block, end)
is consumed by a completed `_unwarp_ifs` run, and the removal facts at
concrete lists and boundaries. -/
theorem c7_unwarp_ifs_region_retention_witness :
    (∃ (blocks2 : List Block) (bnds : List (Nat × Nat)),
      [set_flow_to c7h 2, c7e] = remove_processed_blocks blocks2 bnds ∧
      blocks2.length = ([c7h, c7b, c7e] : List Block).length ∧
      (∀ q ∈ bnds, q.1 < q.2 ∧ q.2 + 1 < ([c7h, c7b, c7e] : List Block).length) ∧
      List.Chain' (fun a b => a.2 < b.1) bnds ∧
      (∀ (p : Nat) (hp : p < ([c7h, c7b, c7e] : List Block).length)
          (hp2 : p < blocks2.length),
        (∀ q ∈ bnds, p ≠ q.1) →
        blocks2.get ⟨p, hp2⟩ = ([c7h, c7b, c7e] : List Block).get ⟨p, hp⟩) ∧
      (∀ q ∈ bnds, ∃ (h1 : q.1 < ([c7h, c7b, c7e] : List Block).length)
          (h1b : q.1 < blocks2.length)
          (h2 : q.2 + 1 < ([c7h, c7b, c7e] : List Block).length),
        blocks2.get ⟨q.1, h1b⟩ =
          set_flow_to (([c7h, c7b, c7e] : List Block).get ⟨q.1, h1⟩)
            ((([c7h, c7b, c7e] : List Block).get ⟨q.2 + 1, h2⟩).id))) ∧
    remove_processed_blocks [blk 0, blk 1, blk 2, blk 3] [(0, 2)] =
      kept_segments [blk 0, blk 1, blk 2, blk 3] [(0, 2)] (-1) ∧
    remove_processed_blocks [blk 0, blk 1, blk 2, blk 3] [(0, 2)] =
      ([blk 0, blk 1, blk 2, blk 3] : List Block).take 1 ++
        ([blk 0, blk 1, blk 2, blk 3] : List Block).drop 3 ∧
    remove_processed_blocks [blk 0, blk 1, blk 2] [(1, 1)] =
      ([blk 0, blk 1, blk 2] : List Block).take 1 ++
        ([blk 0, blk 1, blk 2] : List Block).drop 2 := by
  refine ⟨?_, ?_, ?_, ?_⟩
  · exact c7_unwarp_ifs_region_retention.1 [c7h, c7b, c7e] [c7h, c7b, c7e]
      [set_flow_to c7h 2, c7e] rfl
  · exact c7_unwarp_ifs_region_retention.2.1 [blk 0, blk 1, blk 2, blk 3]
      [(0, 2)] (by decide)
  · exact c7_unwarp_ifs_region_retention.2.2.1 [blk 0, blk 1, blk 2, blk 3] 0 2
      (by decide)
  · exact c7_unwarp_ifs_region_retention.2.2.2 [blk 0, blk 1, blk 2] 1

/-! ## The primary pass per statements-list (`primary_pass`) -/

/-- The index fixing of `_run_step`: after each step every block's
`index` is set to its position in the list. -/
def reindex_blocks (blocks : List Block) : List Block :=
  blocks.enum.map (fun p => { p.2 with index := p.1 })

/-- `_unwarp_loops(blocks, repeat_until)`.  Only the no-loops path is
embedded: when `_find_all_loops` discovers nothing, the preprocessing
and reduction loops do not execute and the list is returned unchanged.
The loop reduction itself (`_unwarp_loop`, `_replace_targets`,
`_unwarp_breaks` wiring and list splicing) is NOT embedded; rather than
guess its effect the model stops with `Err.notModelled` when any loop
is found, so theorems about this function concern only the
nothing-to-do case. -/
def unwarp_loops (blocks : List Block) (repeat_until : Bool) :
    Except Err (List Block) :=
  match find_all_loops blocks repeat_until with
  | .error e => .error e
  | .ok [] => .ok blocks
  | .ok (_ :: _) => .error .notModelled

/-- `primary_pass` restricted to a single statements-list: the two loop
sweeps and the if sweep, each followed by `_run_step`'s re-indexing,
then flow gluing (which is not followed by re-indexing).  The list
itself serves as the dereferencing environment of `_unwarp_ifs`. -/
def primary_pass_list (blocks : List Block) : Except Err (List Block) :=
  match unwarp_loops blocks false with
  | .error e => .error e
  | .ok b1 =>
    match unwarp_loops (reindex_blocks b1) true with
    | .error e => .error e
    | .ok b2 =>
      match unwarp_ifs (reindex_blocks b2) (reindex_blocks b2) none none with
      | .error e => .error e
      | .ok b3 => glue_flows (reindex_blocks b3)

/-- A block in reduced form whose stored `index` is stale (3): exactly
what `_glue_flows` leaves behind, since it keeps the former last block
without re-indexing. -/
def c8b : Block :=
  { id := 7, index := 3, contents := [.otherStat 1], warp := .endW,
    warpins_count := 0, first_address := 0, last_address := 0 }

/-- Counterexample to claim C8: on the already-reduced list `[c8b]`
(one block, `End` warp) re-running the primary pass is not a no-op -
`_run_step`'s re-indexing rewrites the block's stale `index` from 3
to 0, so the AST changes. -/
theorem c8_primary_pass_counterexample :
    primary_pass_list [c8b] = .ok [{ c8b with index := 0 }] ∧
    ({ c8b with index := 0 } : Block) ≠ c8b := by
  constructor
  · rfl
  · decide

/-- Claim C8 (amended): the primary pass is a no-op on a reduced
statements-list up to index normalisation: for a single block with an
`End` warp whose `index` is already 0, both loop sweeps find no loops,
the if sweep consumes no region, flow gluing keeps the single block,
and the list is returned unchanged. -/
theorem c8_primary_pass_reduced_noop (b : Block) (hw : b.warp = .endW)
    (hi : b.index = 0) : primary_pass_list [b] = .ok [b] := by
  have hb : ({ b with index := 0 } : Block) = b := by
    cases b
    simp at hi
    simp [hi]
  have hfal : ∀ ru, find_all_loops [b] ru = .ok [] := by
    intro ru
    simp [find_all_loops, find_all_loops_go, hw]
  have hloops : ∀ ru, unwarp_loops [b] ru = .ok [b] := by
    intro ru
    rw [unwarp_loops, hfal]
  have hreindex : reindex_blocks [b] = [b] := by
    simp [reindex_blocks, List.enum, hb]
  have hifs : unwarp_ifs [b] [b] none none = .ok [b] := by
    rw [unwarp_ifs, unwarp_ifs_go, dif_neg (by simp)]
    simp [remove_processed_blocks, remove_processed_go,
      (by decide : ((-1 : Int) + 1).toNat = 0)]
  have hglue : glue_flows [b] = .ok [b] := by
    rw [glue_flows]
    rw [show ([b].getLast (by simp)) = b from rfl, hw]
    rfl
  rw [primary_pass_list, hloops false]
  dsimp only
  rw [hreindex, hloops true]
  dsimp only
  rw [hreindex, hifs]
  dsimp only
  rw [hreindex, hglue]

/-- Witness for C8 at a concrete reduced block. -/
theorem c8_primary_pass_reduced_noop_witness :
    primary_pass_list
      [{ id := 7, index := 0, contents := [.otherStat 1], warp := .endW,
         warpins_count := 0, first_address := 0, last_address := 0 }] =
    .ok [{ id := 7, index := 0, contents := [.otherStat 1], warp := .endW,
           warpins_count := 0, first_address := 0, last_address := 0 }] :=
  c8_primary_pass_reduced_noop _ rfl rfl

end Ljd
